import Mathlib

/-!
Shallow embedding of the Coffeefy front end (TypeScript/React) used to check
the natural-language specification against the code.

Each definition is transcribed from a named source function:
  * `handleResponse`, `buildRequest`  — src/frontend/src/lib/api.ts (`apiFetch`)
  * `persist`, `rehydrate`, auth ops  — src/frontend/src/context/auth-context.tsx
  * `groupProductsByCategory`         — src/frontend/src/app/cliente/page.tsx
  * `fetchLocalsProcess`              — src/frontend/src/app/cliente/page.tsx (`fetchLocals`)
  * `runPollEffect` / `runPollCleanup`— orders-operations page polling effect
  * `NEXT_STATUS_OPTIONS`             — orders-operations page transition table
  * `STOCK_STATE_LABELS` and friends  — src/frontend/src/app/register/page.tsx
  * loyalty dashboard render model    — loyalty dashboard page

JSON values are opaque to the HTTP helper, so the embedding is parametric in a
type `J` of parsed JSON values.  Browser local storage is modelled by the value
stored under the single key "coffeefy-auth" (`none` = no entry), and a stored
string is abstracted to whether it parses as an `AuthSnapshot` (`StoredValue`);
`JSON.parse (JSON.stringify x) = x` for these record types, which the
abstraction bakes in.  Timers are modelled as the list of active intervals.
-/

/-! ## HTTP helper: src/frontend/src/lib/api.ts -/

/-- Model of the relevant part of a `fetch` `Response`: `jsonBody` is the
result of attempting `response.json()` (`none` = the body is not valid JSON),
`textBody` the result of `response.text()`. -/
structure Response (J : Type) where
  ok : Bool
  status : Nat
  statusText : String
  jsonBody : Option J
  textBody : String

/-- Model of the `ApiError` class (api.ts lines 4-14): `details` is either the
JSON-parsed error body or the raw body text. -/
structure ApiError (J : Type) where
  message : String
  status : Nat
  details : J ⊕ String

/-- Outcome of `apiFetch` once the response has arrived: it resolves with a
JSON value (or with `undefined`, modelled `ok none`, for a 204), rejects with
an `ApiError`, or rejects with the JSON parse error raised by
`response.json()` on a successful response whose body is not valid JSON. -/
inductive FetchOutcome (J : Type) where
  | ok : Option J → FetchOutcome J
  | apiError : ApiError J → FetchOutcome J
  | parseError : FetchOutcome J

/-- Response handling of `apiFetch` (api.ts lines 52-73), transcribed:
`if (!response.ok) { details := json-or-text; throw new ApiError(statusText ||
"Solicitud fallida", status, details) }`, then `if (status === 204) return
undefined`, then `return await response.json()`. -/
def handleResponse {J : Type} (r : Response J) : FetchOutcome J :=
  if r.ok = false then
    FetchOutcome.apiError
      { message := if r.statusText = "" then "Solicitud fallida" else r.statusText
        status := r.status
        details :=
          match r.jsonBody with
          | some j => Sum.inl j
          | none => Sum.inr r.textBody }
  else if r.status = 204 then
    FetchOutcome.ok none
  else
    match r.jsonBody with
    | some j => FetchOutcome.ok (some j)
    | none => FetchOutcome.parseError

/-- Model of the `RequestOptions` type of api.ts: `none` stands for an absent
(`undefined`/`null`) field, and `headers` is the entry list of the
`options.headers` object. -/
structure RequestOptions (J : Type) where
  method : Option String := none
  headers : List (String × String) := []
  body : Option J := none
  token : Option String := none

/-- The request `apiFetch` hands to `fetch`: `body` is set exactly when
`options.body` was defined (the JSON text serializes that value). -/
structure BuiltRequest (J : Type) where
  url : String
  method : String
  headers : List (String × String)
  credentials : String
  body : Option J

/-- JavaScript object-key update: assigning `h[k] := v` overwrites an existing
entry in place and otherwise appends a new one. -/
def setHeader : List (String × String) → String → String → List (String × String)
  | [], k, v => [(k, v)]
  | e :: rest, k, v => if e.1 = k then (k, v) :: rest else e :: setHeader rest k v

/-- Header lookup by key (first entry wins; keys are unique in an object). -/
def getHeader : List (String × String) → String → Option String
  | [], _ => none
  | e :: rest, k => if e.1 = k then some e.2 else getHeader rest k

/-- The regex replace `API_BASE_URL.replace(/\/$/, "")`: drop one trailing
slash when present. -/
def stripTrailingSlash (s : String) : String :=
  if s.endsWith "/" then s.dropRight 1 else s

/-- Truthiness of an optional string, as used by `if (options.token)` and
`if (!accessToken)`: absent or empty is falsy. -/
def strTruthy : Option String → Bool
  | some s => !(s == "")
  | none => false

/-- URL resolution of `apiFetch` (api.ts lines 27-31). -/
def buildUrl (baseUrl path : String) : String :=
  if path.startsWith "http" then path
  else
    stripTrailingSlash baseUrl ++
      (if path.startsWith "/" then "" else "/") ++ path

/-- `headers = { Accept: "application/json", ...options.headers }` (api.ts
lines 32-35): object spread applies the custom entries in order. -/
def baseHeaders (custom : List (String × String)) : List (String × String) :=
  custom.foldl (fun hs e => setHeader hs e.1 e.2) [("Accept", "application/json")]

/-- `if (options.token) headers.Authorization = `Bearer ...`` (lines 43-45);
an absent or empty token is falsy. -/
def authHeaders (hs : List (String × String)) (token : Option String) :
    List (String × String) :=
  match token with
  | some t => if t = "" then hs else setHeader hs "Authorization" ("Bearer " ++ t)
  | none => hs

/-- `if (options.body !== undefined) headers["Content-Type"] = ...`
(lines 47-50). -/
def bodyHeaders {J : Type} (hs : List (String × String)) (body : Option J) :
    List (String × String) :=
  match body with
  | some _ => setHeader hs "Content-Type" "application/json"
  | none => hs

/-- Request construction of `apiFetch` (api.ts lines 27-50), transcribed: URL
resolution, `headers = { Accept: "application/json", ...options.headers }`,
then the Authorization header when the token is truthy, then Content-Type and
the serialized body when `options.body !== undefined` (the same sequential
order as the source's header mutations). -/
def buildRequest {J : Type} (baseUrl path : String) (o : RequestOptions J) :
    BuiltRequest J :=
  { url := buildUrl baseUrl path
    method := o.method.getD "GET"
    headers := bodyHeaders (authHeaders (baseHeaders o.headers) o.token) o.body
    credentials := "include"
    body := o.body }

/-! ## Auth session: src/frontend/src/context/auth-context.tsx -/

/-- The token pair returned by `/api/token/`. -/
structure AuthTokens where
  access : String
  refresh : String
deriving DecidableEq, Repr

/-- The authenticated user as held in context state. -/
structure AuthUser where
  username : String
  role : Option String
deriving DecidableEq, Repr

/-- The `AuthSnapshot` persisted under the "coffeefy-auth" key. -/
structure AuthSnapshot where
  tokens : Option AuthTokens
  user : Option AuthUser
deriving DecidableEq, Repr

/-- A string stored under the key, abstracted to whether `JSON.parse` yields an
`AuthSnapshot` (`snap`) or throws (`malformed`). -/
inductive StoredValue where
  | snap : AuthSnapshot → StoredValue
  | malformed : StoredValue
deriving DecidableEq, Repr

/-- The local-storage entry under "coffeefy-auth" (`none` = no entry). -/
abbrev AuthStorage := Option StoredValue

/-- The provider's in-memory state relevant to the session. -/
structure AuthMemory where
  loading : Bool
  tokens : Option AuthTokens
  user : Option AuthUser
deriving DecidableEq, Repr

/-- Initial provider state: `loading = true`, no tokens, no user. -/
def initialAuthMemory : AuthMemory :=
  { loading := true, tokens := none, user := none }

/-- `persist` (auth-context.tsx lines 76-90): null tokens remove the entry,
otherwise a snapshot of the tokens and user is stored. -/
def persist (nextTokens : Option AuthTokens) (nextUser : Option AuthUser) : AuthStorage :=
  match nextTokens with
  | none => none
  | some tk => some (StoredValue.snap { tokens := some tk, user := nextUser })

/-- The mount-time re-hydration effect (auth-context.tsx lines 61-74): a
stored snapshot is loaded into state, a malformed entry is removed, and the
effect always ends with `loading = false`. -/
def rehydrate (mem : AuthMemory) (storage : AuthStorage) : AuthMemory × AuthStorage :=
  match storage with
  | none => ({ mem with loading := false }, storage)
  | some (StoredValue.snap s) =>
      ({ loading := false, tokens := s.tokens, user := s.user }, storage)
  | some StoredValue.malformed => ({ mem with loading := false }, none)

/-- The session-changing operations of the provider: the re-hydration effect,
a successful login (`setTokens`/`setUser`/`persist`, lines 136-139), the
profile-enrichment success path of `loadUserProfile` (lines 109-116), and
`logout` (lines 92-97). -/
inductive AuthOp where
  | rehydrateOp : AuthOp
  | loginSuccess : AuthTokens → String → AuthOp
  | profileLoaded : AuthTokens → AuthUser → AuthOp
  | logoutOp : AuthOp

/-- Effect of each operation on the provider state and the stored entry. -/
def applyAuthOp : AuthOp → AuthMemory × AuthStorage → AuthMemory × AuthStorage
  | AuthOp.rehydrateOp, (m, st) => rehydrate m st
  | AuthOp.loginSuccess tk username, (m, _) =>
      ({ m with loading := false, tokens := some tk, user := some { username := username, role := none } },
        persist (some tk) (some { username := username, role := none }))
  | AuthOp.profileLoaded tk u, (m, _) =>
      ({ m with user := some u }, persist (some tk) (some u))
  | AuthOp.logoutOp, (m, _) =>
      ({ m with tokens := none, user := none }, persist none none)

/-- The `accessToken` the context exposes: `tokens?.access ?? null`. -/
def accessToken (m : AuthMemory) : Option String :=
  match m.tokens with
  | some tk => some tk.access
  | none => none

/-- The persisted-iff-authenticated invariant of claim C10: an entry parsing
as a snapshot exists exactly when the in-memory tokens are non-null, and any
stored snapshot carries non-null tokens. -/
def authInv (m : AuthMemory) (st : AuthStorage) : Prop :=
  ((∃ s, st = some (StoredValue.snap s)) ↔ m.tokens ≠ none) ∧
  (∀ s, st = some (StoredValue.snap s) → s.tokens ≠ none)

/-! ## Customer wallet catalog: src/frontend/src/app/cliente/page.tsx -/

/-- The `CatalogProduct` type of the customer wallet page (lines 66-81);
`category` is `number | null`. -/
structure CatalogProduct where
  id : Int
  localId : Int
  name : String
  description : String
  price : String
  category : Option Int
  category_name : String
  category_slug : String
  display_order : Int
  image_url : Option String
  in_stock : Bool
  is_active : Bool
  state : String
  stock_state : String
deriving DecidableEq, Repr

/-- A category group of the wallet catalog (lines 83-87). -/
structure CatalogGroup where
  categoryId : Option Int
  categoryName : String
  items : List CatalogProduct
deriving DecidableEq, Repr

/-- The grouping key `product.category ?? -1` (line 136); the source then maps
the sentinel `-1` to the map key `"uncategorized"`, which is the same
identification of `null` with `-1`. -/
def categoryKey (p : CatalogProduct) : Int :=
  match p.category with
  | some c => c
  | none => -1

/-- The displayed category name of a freshly created group (lines 142-146):
the product's `category_name` when non-empty, else "Sin categoría". -/
def displayCategoryName (p : CatalogProduct) : String :=
  if p.category_name.length > 0 then p.category_name else "Sin categoría"

/-- The group pushed for a product whose key is new (lines 141-148). -/
def newGroup (p : CatalogProduct) : CatalogGroup :=
  { categoryId := p.category, categoryName := displayCategoryName p, items := [] }

/-- `groups[i].items.push(product)` (line 150). -/
def pushItem : List CatalogGroup → Nat → CatalogProduct → List CatalogGroup
  | [], _, _ => []
  | g :: gs, 0, p => { g with items := g.items ++ [p] } :: gs
  | g :: gs, i + 1, p => g :: pushItem gs i p

/-- Lookup in the `indexByCategory` map, modelled as an association list. -/
def lookupKey (k : Int) : List (Int × Nat) → Option Nat
  | [] => none
  | e :: rest => if e.1 = k then some e.2 else lookupKey k rest

/-- One iteration of the `products.forEach` loop (lines 135-151). -/
def groupStep (st : List CatalogGroup × List (Int × Nat)) (p : CatalogProduct) :
    List CatalogGroup × List (Int × Nat) :=
  match lookupKey (categoryKey p) st.2 with
  | some i => (pushItem st.1 i p, st.2)
  | none =>
      (pushItem (st.1 ++ [newGroup p]) st.1.length p,
        st.2 ++ [(categoryKey p, st.1.length)])

/-- `groupProductsByCategory` (lines 131-155), transcribed as the fold of the
loop body over the product list starting from empty groups and an empty map. -/
def groupProductsByCategory (products : List CatalogProduct) : List CatalogGroup :=
  (products.foldl groupStep ([], [])).1

/-- First-occurrence key accumulation: append a key unless already seen. -/
def addKey (ks : List Int) (k : Int) : List Int :=
  if k ∈ ks then ks else ks ++ [k]

/-- The distinct grouping keys of the input, in order of first occurrence. -/
def keysOf (products : List CatalogProduct) : List Int :=
  products.foldl (fun ks p => addKey ks (categoryKey p)) []

/-- The first product of the list with the given grouping key. -/
def firstWithKey (k : Int) : List CatalogProduct → Option CatalogProduct
  | [] => none
  | p :: ps => if categoryKey p = k then some p else firstWithKey k ps

/-- All products of the list with the given grouping key, in input order. -/
def itemsWithKey (k : Int) : List CatalogProduct → List CatalogProduct
  | [] => []
  | p :: ps =>
      if categoryKey p = k then p :: itemsWithKey k ps else itemsWithKey k ps

/-- Closed form of the group the loop builds for key `k`: identity and name
from the first product carrying the key, items the subsequence carrying it. -/
def groupForKey (products : List CatalogProduct) (k : Int) : CatalogGroup :=
  match firstWithKey k products with
  | some p =>
      { categoryId := p.category
        categoryName := displayCategoryName p
        items := itemsWithKey k products }
  | none =>
      { categoryId := none
        categoryName := "Sin categoría"
        items := itemsWithKey k products }

/-- The `indexByCategory` map contents when the listed keys were inserted in
order starting at index `start`. -/
def indexListFrom : Nat → List Int → List (Int × Nat)
  | _, [] => []
  | start, k :: ks => (k, start) :: indexListFrom (start + 1) ks

/-- Closed form of the grouping: one group per distinct key in first-occurrence
order. -/
def implGroups (products : List CatalogProduct) : List CatalogGroup :=
  (keysOf products).map (groupForKey products)

/-- Closed form of the full loop state after processing `products`. -/
def implState (products : List CatalogProduct) :
    List CatalogGroup × List (Int × Nat) :=
  (implGroups products, indexListFrom 0 (keysOf products))

/-- First-occurrence category accumulation over `number | null` categories. -/
def addCat (cs : List (Option Int)) (c : Option Int) : List (Option Int) :=
  if c ∈ cs then cs else cs ++ [c]

/-- Modelled from the spec wording of claim C4: the distinct categories of the
input (with `null` as its own category), ordered by first occurrence. -/
def claimCategories (products : List CatalogProduct) : List (Option Int) :=
  products.foldl (fun cs p => addCat cs p.category) []

/-- The first product of the list with the given category. -/
def firstWithCategory (c : Option Int) : List CatalogProduct → Option CatalogProduct
  | [] => none
  | p :: ps => if p.category = c then some p else firstWithCategory c ps

/-- All products of the list with the given category, in input order. -/
def itemsWithCategory (c : Option Int) : List CatalogProduct → List CatalogProduct
  | [] => []
  | p :: ps =>
      if p.category = c then p :: itemsWithCategory c ps else itemsWithCategory c ps

/-- Modelled from the spec wording of claim C4: the group of a category holds
exactly the products of that category in input order, its `categoryId` is that
category (so `null` for the uncategorized group), and its `categoryName` is
the first member's `category_name`, or "Sin categoría" when that is empty. -/
def claimGroupFor (products : List CatalogProduct) (c : Option Int) : CatalogGroup :=
  { categoryId := c
    categoryName :=
      match firstWithCategory c products with
      | some p =>
          if p.category_name.length > 0 then p.category_name else "Sin categoría"
      | none => "Sin categoría"
    items := itemsWithCategory c products }

/-- Modelled from the spec wording of claim C4: groups in first-occurrence
order of their category. -/
def claimGroups (products : List CatalogProduct) : List CatalogGroup :=
  (claimCategories products).map (claimGroupFor products)

/-- The identification of categories with grouping keys performed by
`product.category ?? -1`: `null` becomes the sentinel `-1`. -/
def catToKey : Option Int → Int
  | some c => c
  | none => -1

/-! ## Customer wallet locals list: `fetchLocals` (cliente/page.tsx 279-302) -/

/-- The `Local` type of the wallet page (lines 25-43), tags elided to ids. -/
structure Local where
  id : Int
  name : String
  description : String
  address : String
  schedule : String
  venueType : String
  cover_image_url : Option String
  website_url : String
  instagram_url : String
  contact_phone : String
  contact_email : String
  map_url : String
  points_rate : Int
deriving DecidableEq, Repr

/-- `["cafeteria", "hibrido"].includes(local.type)` (line 287). -/
def isCafeteriaOrHibrido (l : Local) : Bool :=
  ["cafeteria", "hibrido"].contains l.venueType

/-- The processing `fetchLocals` applies to the `/api/locals/` response
(lines 286-289): filter to cafeteria/hybrid venues, then sort ascending by
name under `localeCompare`.  The comparator-driven `Array.prototype.sort` is
modelled, per its specification (sorted stable permutation for a consistent
comparator), as a stable insertion sort with respect to the name order `le`
induced by the collation. -/
def fetchLocalsProcess (le : String → String → Bool) (response : List Local) :
    List Local :=
  List.insertionSort (fun a b => le a.name b.name = true)
    (response.filter isCafeteriaOrHibrido)

/-! ## Orders-operations polling (unnamed orders page, lines 428-442) -/

/-- Active `window.setInterval` timers: fresh-id counter and the list of
`(id, delay in ms)` pairs. -/
structure TimerState where
  nextId : Nat
  active : List (Nat × Nat)
deriving DecidableEq, Repr

/-- `REFRESH_INTERVAL_MS` (line 209). -/
def REFRESH_INTERVAL_MS : Nat := 30000

/-- `window.clearInterval(id)`. -/
def clearIntervalTS (ts : TimerState) (id : Nat) : TimerState :=
  { ts with active := ts.active.filter (fun e => !(e.1 == id)) }

/-- `window.setInterval(cb, delay)`: returns the fresh id. -/
def setIntervalTS (ts : TimerState) (delay : Nat) : Nat × TimerState :=
  (ts.nextId, { nextId := ts.nextId + 1, active := ts.active ++ [(ts.nextId, delay)] })

/-- Result of running the polling effect body: the new `pollRef`, the timer
state, and whether a cleanup function was returned. -/
structure PollEffectResult where
  pollRef : Option Nat
  timers : TimerState
  cleanup : Bool
deriving DecidableEq, Repr

/-- The polling effect body (lines 428-442): bail out when the access token is
falsy, otherwise clear any interval already referenced by `pollRef`, schedule
`fetchData` every `REFRESH_INTERVAL_MS` ms, and return a cleanup function. -/
def runPollEffect (accessTok : Option String) (pollRef : Option Nat)
    (ts : TimerState) : PollEffectResult :=
  if strTruthy accessTok = false then
    { pollRef := pollRef, timers := ts, cleanup := false }
  else
    let ts1 :=
      match pollRef with
      | some id => clearIntervalTS ts id
      | none => ts
    let (newId, ts2) := setIntervalTS ts1 REFRESH_INTERVAL_MS
    { pollRef := some newId, timers := ts2, cleanup := true }

/-- The effect's cleanup (lines 437-441): clear the referenced interval. -/
def runPollCleanup (pollRef : Option Nat) (ts : TimerState) : TimerState :=
  match pollRef with
  | some id => clearIntervalTS ts id
  | none => ts

/-! ## Order status transitions (unnamed orders page, lines 177-212) -/

/-- `ORDER_STATUSES` / the `OrderStatus` union (lines 177-183, 212). -/
inductive OrderStatus where
  | pendiente | preparando | listo | completado | cancelado
deriving DecidableEq, Repr

/-- `NEXT_STATUS_OPTIONS` (lines 201-207): the transitions the status-update
buttons offer from each status. -/
def NEXT_STATUS_OPTIONS : OrderStatus → List OrderStatus
  | OrderStatus.pendiente => [OrderStatus.preparando, OrderStatus.cancelado]
  | OrderStatus.preparando => [OrderStatus.listo, OrderStatus.cancelado]
  | OrderStatus.listo => [OrderStatus.completado, OrderStatus.cancelado]
  | OrderStatus.completado => []
  | OrderStatus.cancelado => []

/-- The step relation induced by the buttons: `handleStatusUpdate` is only
invoked with a target drawn from `NEXT_STATUS_OPTIONS` of the current status. -/
def statusOffered (s t : OrderStatus) : Bool :=
  (NEXT_STATUS_OPTIONS s).contains t

/-! ## Stock state display: src/frontend/src/app/register/page.tsx -/

/-- The `StockState` union (line 1442): the five server-computed values. -/
inductive StockState where
  | available | normal | low | critical | out
deriving DecidableEq, Repr

/-- `STOCK_STATE_LABELS` (lines 1477-1483), a total table over `StockState`. -/
def STOCK_STATE_LABELS : StockState → String
  | StockState.available => "Disponible"
  | StockState.normal => "Stock saludable"
  | StockState.low => "Stock bajo"
  | StockState.critical => "Stock crítico"
  | StockState.out => "Sin stock"

/-- `STOCK_BADGE_CLASSES` (lines 1485-1491), the badge-style table. -/
def STOCK_BADGE_CLASSES : StockState → String
  | StockState.available => "bg-(--surface-alt) text-(--muted-foreground)"
  | StockState.normal => "bg-(--surface-alt) text-(--muted-foreground)"
  | StockState.low => "bg-yellow-100 text-yellow-800"
  | StockState.critical => "bg-red-100 text-red-700"
  | StockState.out => "bg-red-200 text-red-800"

/-- The `Product` type of the register page (lines 1444-1469), tag details
elided to ids. -/
structure Product where
  id : Int
  localId : Int
  local_name : String
  category : Int
  category_name : String
  category_slug : String
  category_tracks_stock : Bool
  tracks_stock : Bool
  name : String
  description : String
  price : String
  stock : Int
  in_stock : Bool
  stock_state : StockState
  low_stock_threshold : Int
  critical_stock_threshold : Int
  display_order : Int
  state : String
  is_active : Bool
  image_url : Option String
  tags : Option (List Int)
  created_at : String
  updated_at : String
deriving DecidableEq, Repr

/-- The stock-state text the product table's stock cell renders (register
page, lines 2248-2300): for stock-tracked products the label table applied to
the server's `stock_state`, otherwise the availability badge text. -/
def stockCellLabel (p : Product) : String :=
  if p.tracks_stock then STOCK_STATE_LABELS p.stock_state
  else if p.in_stock then "Disponible" else "Sin stock"

/-- The badge class the stock cell uses for a stock-tracked product. -/
def stockCellBadge (p : Product) : String :=
  STOCK_BADGE_CLASSES p.stock_state

/-- The out-of-stock notice of the wallet catalog (cliente/page.tsx lines
800-806): shown when `!product.in_stock || product.stock_state === "out"`. -/
def walletOutOfStockNotice (p : CatalogProduct) : Bool :=
  !p.in_stock || (p.stock_state == "out")

/-! ## Loyalty dashboard (unnamed loyalty page, lines 837-858, 1242-1290) -/

/-- A `top_customers` entry of the `LoyaltySummary` payload. -/
structure TopCustomer where
  user_id : Int
  user_name : String
  local_id : Int
  local_name : String
  total_points : Int
deriving DecidableEq, Repr

/-- A `top_rewards` entry of the `LoyaltySummary` payload. -/
structure TopReward where
  reward_id : Int
  reward_name : String
  redemptions : Int
deriving DecidableEq, Repr

/-- The `LoyaltySummary` type (lines 837-858). -/
structure LoyaltySummary where
  total_points : Int
  active_customers : Int
  active_rewards : Int
  total_rewards : Int
  redemptions_last_window : Int
  points_redeemed_last_window : Int
  top_customers : List TopCustomer
  top_rewards : List TopReward
  generated_at : String
  window_days : Int
deriving DecidableEq, Repr

/-- The loyalty page state relevant to the summary cards. -/
structure LoyaltyPageState where
  summary : Option LoyaltySummary
deriving DecidableEq, Repr

/-- `setSummary(summaryResponse)` (line 984): the fetched summary is stored
verbatim. -/
def applySummaryResponse (st : LoyaltyPageState) (resp : LoyaltySummary) :
    LoyaltyPageState :=
  { st with summary := some resp }

/-- The rows of the "Top clientes" card (lines 1247-1264): one row per
`top_customers` entry, in order, showing the name and the formatted points
(`fmt` models the locale number formatter). -/
def renderedTopCustomers (fmt : Int → String) (st : LoyaltyPageState) :
    List (String × String) :=
  match st.summary with
  | some s => s.top_customers.map (fun c => (c.user_name, fmt c.total_points ++ " pts"))
  | none => []

/-- The rows of the "Recompensas destacadas" card (lines 1266-1290): one row
per `top_rewards` entry, in order. -/
def renderedTopRewards (fmt : Int → String) (st : LoyaltyPageState) :
    List (String × String) :=
  match st.summary with
  | some s => s.top_rewards.map (fun r => (r.reward_name, fmt r.redemptions ++ " canjes"))
  | none => []

/-- Side condition under which an operation occurs in the provider:
`loadUserProfile` is invoked (auth-context.tsx line 142) with exactly the
token pair that the login success path has just stored into state. -/
def opWellFormed (op : AuthOp) (m : AuthMemory) : Prop :=
  match op with
  | AuthOp.profileLoaded tk _ => m.tokens = some tk
  | _ => True

/-! ## Concrete sample data used by witnesses and counterexamples -/

/-- A concrete not-ok response. -/
def c1W404 : Response Nat :=
  { ok := false, status := 404, statusText := "Not Found", jsonBody := none,
    textBody := "missing" }

/-- A concrete 204 response. -/
def c1W204 : Response Nat :=
  { ok := true, status := 204, statusText := "No Content", jsonBody := none,
    textBody := "" }

/-- A concrete ok response with a JSON body. -/
def c1W200 : Response Nat :=
  { ok := true, status := 200, statusText := "OK", jsonBody := some 7,
    textBody := "7" }

/-- A successful response whose body is not valid JSON. -/
def c1BadResponse : Response Unit :=
  { ok := true, status := 200, statusText := "OK", jsonBody := none,
    textBody := "<!DOCTYPE html>" }

/-- Options whose custom headers already carry an Authorization entry while
the token is absent. -/
def c2CxOptions : RequestOptions Nat :=
  { headers := [("Authorization", "Bearer hacked")], token := none }

/-- Options with a truthy token, a custom header, and a defined body. -/
def c2WOptions : RequestOptions Nat :=
  { method := some "POST", headers := [("X-Custom", "1")], body := some 5,
    token := some "tok" }

/-- A product whose category id is the sentinel value `-1`. -/
def cxProdNeg : CatalogProduct :=
  { id := 1, localId := 1, name := "Raro", description := "", price := "1000",
    category := some (-1), category_name := "Weird", category_slug := "weird",
    display_order := 0, image_url := none, in_stock := true, is_active := true,
    state := "normal", stock_state := "available" }

/-- A product with no category. -/
def cxProdNull : CatalogProduct :=
  { id := 2, localId := 1, name := "Suelto", description := "", price := "500",
    category := none, category_name := "", category_slug := "",
    display_order := 1, image_url := none, in_stock := true, is_active := true,
    state := "normal", stock_state := "available" }

/-- A product in category 1. -/
def c4WProdA : CatalogProduct :=
  { id := 3, localId := 1, name := "Latte", description := "", price := "2500",
    category := some 1, category_name := "Cafés", category_slug := "cafes",
    display_order := 0, image_url := none, in_stock := true, is_active := true,
    state := "normal", stock_state := "available" }

/-- An uncategorized product. -/
def c4WProdB : CatalogProduct :=
  { id := 4, localId := 1, name := "Vaso", description := "", price := "300",
    category := none, category_name := "", category_slug := "",
    display_order := 1, image_url := none, in_stock := true, is_active := true,
    state := "normal", stock_state := "available" }

/-- A simple total, transitive name order used to instantiate the collation. -/
def lengthLe (a b : String) : Bool :=
  decide (a.length ≤ b.length)

/-- A cafeteria venue. -/
def c7Cafe : Local :=
  { id := 1, name := "Umami", description := "", address := "", schedule := "",
    venueType := "cafeteria", cover_image_url := none, website_url := "",
    instagram_url := "", contact_phone := "", contact_email := "",
    map_url := "", points_rate := 1 }

/-- A venue that is neither a cafeteria nor a hybrid. -/
def c7Bar : Local :=
  { id := 2, name := "Bar", description := "", address := "", schedule := "",
    venueType := "bar", cover_image_url := none, website_url := "",
    instagram_url := "", contact_phone := "", contact_email := "",
    map_url := "", points_rate := 1 }

/-- A hybrid venue. -/
def c7Hibrido : Local :=
  { id := 3, name := "La Esquina", description := "", address := "",
    schedule := "", venueType := "hibrido", cover_image_url := none,
    website_url := "", instagram_url := "", contact_phone := "",
    contact_email := "", map_url := "", points_rate := 1 }

/-- A timer state with one active interval and a fresh id counter. -/
def c5WTimer : TimerState :=
  { nextId := 1, active := [(0, 30000)] }

/-! ## Theorems -/

/-- Claim C9: the client-side order-status transition table offers exactly
`pendiente → preparando | cancelado`, `preparando → listo | cancelado`,
`listo → completado | cancelado`, and nothing from `completado` or
`cancelado`; hence under the step relation induced by the status-update
buttons (which draw their targets from `NEXT_STATUS_OPTIONS` of the current
status), a terminal order is never offered any further transition. -/
theorem claim_c9_terminal_statuses :
    NEXT_STATUS_OPTIONS OrderStatus.pendiente =
      [OrderStatus.preparando, OrderStatus.cancelado] ∧
    NEXT_STATUS_OPTIONS OrderStatus.preparando =
      [OrderStatus.listo, OrderStatus.cancelado] ∧
    NEXT_STATUS_OPTIONS OrderStatus.listo =
      [OrderStatus.completado, OrderStatus.cancelado] ∧
    NEXT_STATUS_OPTIONS OrderStatus.completado = [] ∧
    NEXT_STATUS_OPTIONS OrderStatus.cancelado = [] ∧
    (∀ t, statusOffered OrderStatus.completado t = false) ∧
    (∀ t, statusOffered OrderStatus.cancelado t = false) := by
  refine ⟨rfl, rfl, rfl, rfl, rfl, ?_, ?_⟩ <;> intro t <;> cases t <;> rfl

/-- Claim C8: the stock state is merely displayed, not recomputed.  The
`StockState` type has exactly the five server-computed values; for a
stock-tracked product the rendered label is the fixed total table
`STOCK_STATE_LABELS` applied to the server's `stock_state` (so it is always
one of the five label strings); and both the label and the badge class are
invariant under arbitrary changes to the product's stock quantity and its
low/critical thresholds. -/
theorem claim_c8_stock_display :
    (∀ s : StockState,
      s ∈ [StockState.available, StockState.normal, StockState.low,
        StockState.critical, StockState.out]) ∧
    (∀ p : Product,
      stockCellLabel { p with tracks_stock := true } =
        STOCK_STATE_LABELS p.stock_state) ∧
    (∀ s : StockState,
      STOCK_STATE_LABELS s ∈
        ["Disponible", "Stock saludable", "Stock bajo", "Stock crítico",
          "Sin stock"]) ∧
    (∀ (p : Product) (n lo cr : Int),
      stockCellLabel
          { p with
            stock := n
            low_stock_threshold := lo
            critical_stock_threshold := cr } =
        stockCellLabel p) ∧
    (∀ (p : Product) (n lo cr : Int),
      stockCellBadge
          { p with
            stock := n
            low_stock_threshold := lo
            critical_stock_threshold := cr } =
        stockCellBadge p) := by
  refine ⟨?_, ?_, ?_, ?_, ?_⟩
  · intro s; cases s <;> simp
  · intro p; rfl
  · intro s; cases s <;> simp [STOCK_STATE_LABELS]
  · intro p n lo cr; rfl
  · intro p n lo cr; rfl

/-- Claim C6: the loyalty dashboard renders the pre-aggregated top lists
verbatim.  After the fetched summary is stored, the "Top clientes" rows are
exactly `summary.top_customers` in order (name and formatted points) and the
"Recompensas destacadas" rows are exactly `summary.top_rewards` in order,
with no client-side sorting, ranking, or truncation (same names in the same
positions, same lengths). -/
theorem claim_c6_loyalty_top_lists (fmt : Int → String) (st : LoyaltyPageState)
    (resp : LoyaltySummary) :
    renderedTopCustomers fmt (applySummaryResponse st resp) =
      resp.top_customers.map (fun c => (c.user_name, fmt c.total_points ++ " pts")) ∧
    renderedTopRewards fmt (applySummaryResponse st resp) =
      resp.top_rewards.map (fun r => (r.reward_name, fmt r.redemptions ++ " canjes")) ∧
    (renderedTopCustomers fmt (applySummaryResponse st resp)).map Prod.fst =
      resp.top_customers.map TopCustomer.user_name ∧
    (renderedTopCustomers fmt (applySummaryResponse st resp)).length =
      resp.top_customers.length ∧
    (renderedTopRewards fmt (applySummaryResponse st resp)).map Prod.fst =
      resp.top_rewards.map TopReward.reward_name ∧
    (renderedTopRewards fmt (applySummaryResponse st resp)).length =
      resp.top_rewards.length := by
  refine ⟨rfl, rfl, ?_, ?_, ?_, ?_⟩ <;>
    simp [renderedTopCustomers, renderedTopRewards, applySummaryResponse,
      List.map_map, Function.comp]

/-- Claim C3: the auth session round-trips through local storage.  For every
non-null tokens and user, `persist` writes a snapshot holding exactly them,
and the mount-time re-hydration effect started from the initial provider
state restores exactly those tokens and that user; a stored value that is not
valid JSON is removed by the effect and leaves tokens and user null; and in
every case the effect ends with `loading = false`. -/
theorem claim_c3_auth_roundtrip (tk : AuthTokens) (u : AuthUser) :
    (∃ s, persist (some tk) (some u) = some (StoredValue.snap s) ∧
      s.tokens = some tk ∧ s.user = some u) ∧
    rehydrate initialAuthMemory (persist (some tk) (some u)) =
      ({ loading := false, tokens := some tk, user := some u },
        persist (some tk) (some u)) ∧
    rehydrate initialAuthMemory (some StoredValue.malformed) =
      ({ loading := false, tokens := none, user := none }, none) ∧
    (∀ st : AuthStorage, ((rehydrate initialAuthMemory st).1).loading = false) := by
  refine ⟨⟨{ tokens := some tk, user := some u }, rfl, rfl, rfl⟩, rfl, rfl, ?_⟩
  intro st
  cases st with
  | none => rfl
  | some v => cases v <;> rfl

/-- Claim C10: the auth provider preserves the persisted-iff-authenticated
invariant across every session operation (re-hydration, successful login,
profile enrichment, logout); `persist` with null tokens removes the stored
entry; and after logout the exposed `accessToken` is null, the entry is gone,
and a subsequent re-hydration restores no session. -/
theorem claim_c10_auth_invariant (op : AuthOp) (m : AuthMemory) (st : AuthStorage)
    (h : authInv m st) (hop : opWellFormed op m) :
    authInv (applyAuthOp op (m, st)).1 (applyAuthOp op (m, st)).2 ∧
    (∀ u, persist none u = none) ∧
    accessToken (applyAuthOp AuthOp.logoutOp (m, st)).1 = none ∧
    (applyAuthOp AuthOp.logoutOp (m, st)).2 = none ∧
    (rehydrate (applyAuthOp AuthOp.logoutOp (m, st)).1
        (applyAuthOp AuthOp.logoutOp (m, st)).2).1.tokens = none ∧
    (rehydrate (applyAuthOp AuthOp.logoutOp (m, st)).1
        (applyAuthOp AuthOp.logoutOp (m, st)).2).1.user = none := by
  obtain ⟨h1, h2⟩ := h
  refine ⟨?_, fun u => rfl, rfl, rfl, rfl, rfl⟩
  cases op with
  | rehydrateOp =>
    cases st with
    | none =>
      have hm : m.tokens = none := by
        by_contra hne
        obtain ⟨s, hs⟩ := h1.mpr hne
        exact Option.noConfusion hs
      unfold authInv
      simp only [applyAuthOp, rehydrate]
      refine ⟨⟨?_, ?_⟩, ?_⟩
      · rintro ⟨s, hs⟩
        exact Option.noConfusion hs
      · intro hne
        exact absurd hm hne
      · intro s hs
        exact Option.noConfusion hs
    | some v =>
      cases v with
      | snap s =>
        have hts : s.tokens ≠ none := h2 s rfl
        unfold authInv
        simp only [applyAuthOp, rehydrate]
        refine ⟨⟨fun _ => hts, fun _ => ⟨s, rfl⟩⟩, ?_⟩
        intro s2 hs2
        have hss : s = s2 := StoredValue.snap.inj (Option.some.inj hs2)
        exact hss ▸ hts
      | malformed =>
        have hm : m.tokens = none := by
          by_contra hne
          obtain ⟨s, hs⟩ := h1.mpr hne
          exact StoredValue.noConfusion (Option.some.inj hs)
        unfold authInv
        simp only [applyAuthOp, rehydrate]
        refine ⟨⟨?_, ?_⟩, ?_⟩
        · rintro ⟨s, hs⟩
          exact Option.noConfusion hs
        · intro hne
          exact absurd hm hne
        · intro s hs
          exact Option.noConfusion hs
  | loginSuccess tk username =>
    unfold authInv
    refine ⟨⟨fun _ => ?_, fun _ => ⟨_, rfl⟩⟩, ?_⟩
    · simp [applyAuthOp]
    · intro s hs
      simp only [applyAuthOp, persist, Option.some.injEq, StoredValue.snap.injEq] at hs
      rw [← hs]
      simp
  | profileLoaded tk u =>
    unfold authInv
    refine ⟨⟨fun _ => ?_, fun _ => ⟨_, rfl⟩⟩, ?_⟩
    · have htk : m.tokens = some tk := hop
      simp [applyAuthOp, htk]
    · intro s hs
      simp only [applyAuthOp, persist, Option.some.injEq, StoredValue.snap.injEq] at hs
      rw [← hs]
      simp
  | logoutOp =>
    unfold authInv
    simp only [applyAuthOp, persist]
    refine ⟨⟨?_, ?_⟩, ?_⟩
    · rintro ⟨s, hs⟩
      exact Option.noConfusion hs
    · intro hne
      exact absurd rfl hne
    · intro s hs
      exact Option.noConfusion hs

/-- Witness for claim C10 at a concrete state: the invariant holds initially
with no stored entry, and the theorem yields the post-logout guarantees. -/
theorem claim_c10_witness :
    accessToken (applyAuthOp AuthOp.logoutOp (initialAuthMemory, (none : AuthStorage))).1 = none ∧
    (applyAuthOp AuthOp.logoutOp (initialAuthMemory, (none : AuthStorage))).2 = none ∧
    authInv (applyAuthOp AuthOp.rehydrateOp (initialAuthMemory, (none : AuthStorage))).1
      (applyAuthOp AuthOp.rehydrateOp (initialAuthMemory, (none : AuthStorage))).2 := by
  have hinv : authInv initialAuthMemory none := by
    unfold authInv
    refine ⟨⟨?_, ?_⟩, ?_⟩
    · rintro ⟨s, hs⟩
      exact Option.noConfusion hs
    · intro hne
      exact absurd rfl hne
    · intro s hs
      exact Option.noConfusion hs
  have hre := claim_c10_auth_invariant AuthOp.rehydrateOp initialAuthMemory none hinv
    trivial
  have hlo := claim_c10_auth_invariant AuthOp.logoutOp initialAuthMemory none hinv
    trivial
  exact ⟨hlo.2.2.1, hlo.2.2.2.1, hre.1⟩

/-- Intervals whose ids are below a bound survive a clear of that bound. -/
theorem filter_ne_of_lt (l : List (Nat × Nat)) (n : Nat)
    (h : ∀ e ∈ l, e.1 < n) :
    l.filter (fun e => !(e.1 == n)) = l := by
  induction l with
  | nil => rfl
  | cons e l ih =>
    have he : e.1 < n := h e (List.mem_cons_self e l)
    have hne : (e.1 == n) = false := by
      simp [Nat.ne_of_lt he]
    simp only [List.filter_cons, hne, Bool.not_false, if_pos]
    exact congrArg (e :: ·) (ih fun x hx => h x (List.mem_cons_of_mem e hx))

/-- Clearing a freshly allocated interval id removes exactly the new entry. -/
theorem filter_append_new (l : List (Nat × Nat)) (n d : Nat)
    (h : ∀ e ∈ l, e.1 < n) :
    (l ++ [(n, d)]).filter (fun e => !(e.1 == n)) = l := by
  rw [List.filter_append, filter_ne_of_lt l n h]
  simp

/-- Claim C5: the orders-operations polling effect.  When the access token is
falsy nothing is scheduled and the state is untouched; when it is present the
effect replaces any previously referenced interval, schedules exactly one new
interval at the constant `REFRESH_INTERVAL_MS = 30000` ms, returns a cleanup,
and running that cleanup removes the newly scheduled interval again (given
interval ids below the fresh counter, which `setIntervalTS` maintains). -/
theorem claim_c5_polling (tok : Option String) (pollRef : Option Nat)
    (ts : TimerState) (hfresh : ∀ e ∈ ts.active, e.1 < ts.nextId) :
    (strTruthy tok = false →
      runPollEffect tok pollRef ts =
        { pollRef := pollRef, timers := ts, cleanup := false }) ∧
    (strTruthy tok = true →
      (runPollEffect tok pollRef ts).pollRef = some ts.nextId ∧
      (runPollEffect tok pollRef ts).timers.active =
        (runPollCleanup pollRef ts).active ++ [(ts.nextId, REFRESH_INTERVAL_MS)] ∧
      REFRESH_INTERVAL_MS = 30000 ∧
      (runPollEffect tok pollRef ts).cleanup = true ∧
      (runPollCleanup (runPollEffect tok pollRef ts).pollRef
          (runPollEffect tok pollRef ts).timers).active =
        (runPollCleanup pollRef ts).active) := by
  constructor
  · intro h
    simp [runPollEffect, h]
  · intro h
    have hcleared : ∀ e ∈ (runPollCleanup pollRef ts).active, e.1 < ts.nextId := by
      intro e he
      cases pollRef with
      | none => exact hfresh e he
      | some oldId => exact hfresh e (List.mem_of_mem_filter he)
    have hrun : runPollEffect tok pollRef ts =
        { pollRef := some ts.nextId
          timers :=
            { nextId := ts.nextId + 1
              active :=
                (runPollCleanup pollRef ts).active ++
                  [(ts.nextId, REFRESH_INTERVAL_MS)] }
          cleanup := true } := by
      cases pollRef with
      | none =>
        simp [runPollEffect, h, setIntervalTS, runPollCleanup]
      | some oldId =>
        simp [runPollEffect, h, setIntervalTS, runPollCleanup, clearIntervalTS]
    refine ⟨by rw [hrun], by rw [hrun], rfl, by rw [hrun], ?_⟩
    rw [hrun]
    simp only [runPollCleanup, clearIntervalTS]
    exact filter_append_new _ _ _ hcleared

/-- Witness for claim C5 at a concrete token, poll reference, and timer
state. -/
theorem claim_c5_witness :
    (runPollEffect (some "token") (some 0) c5WTimer).pollRef = some c5WTimer.nextId ∧
    (runPollEffect (some "token") (some 0) c5WTimer).timers.active =
      (runPollCleanup (some 0) c5WTimer).active ++ [(c5WTimer.nextId, REFRESH_INTERVAL_MS)] ∧
    REFRESH_INTERVAL_MS = 30000 ∧
    (runPollEffect (some "token") (some 0) c5WTimer).cleanup = true ∧
    (runPollCleanup (runPollEffect (some "token") (some 0) c5WTimer).pollRef
        (runPollEffect (some "token") (some 0) c5WTimer).timers).active =
      (runPollCleanup (some 0) c5WTimer).active :=
  (claim_c5_polling (some "token") (some 0) c5WTimer (by decide)).2 (by decide)

/-- Counterexample for claim C1: a response with `ok = true` whose body is not
valid JSON makes `apiFetch` throw (the `response.json()` parse error), so
"throws an error if and only if the HTTP response is not ok" fails in the
only-if direction at this concrete response. -/
theorem claim_c1_counterexample :
    c1BadResponse.ok = true ∧
    handleResponse c1BadResponse = FetchOutcome.parseError :=
  ⟨rfl, rfl⟩

/-- Claim C1 amended: `apiFetch` throws an `ApiError` if and only if the
response is not ok, and then its status is `response.status`, its message is
`response.statusText` (or "Solicitud fallida" when the status text is empty),
and its details are the JSON-parsed error body, falling back to the body text
when JSON parsing fails; when the response is ok, a 204 status resolves to
`undefined` without reading a body, an ok body that parses as JSON resolves
to the parsed value, and an ok non-204 body that is not valid JSON throws the
JSON parse error (which is not an `ApiError`). -/
theorem claim_c1_amended {J : Type} (r : Response J) :
    (r.ok = false →
      ∃ e, handleResponse r = FetchOutcome.apiError e ∧
        e.status = r.status ∧
        (r.statusText ≠ "" → e.message = r.statusText) ∧
        (r.statusText = "" → e.message = "Solicitud fallida") ∧
        (∀ j, r.jsonBody = some j → e.details = Sum.inl j) ∧
        (r.jsonBody = none → e.details = Sum.inr r.textBody)) ∧
    ((∃ e, handleResponse r = FetchOutcome.apiError e) ↔ r.ok = false) ∧
    (r.ok = true → r.status = 204 → handleResponse r = FetchOutcome.ok none) ∧
    (r.ok = true → r.status ≠ 204 → ∀ j, r.jsonBody = some j →
      handleResponse r = FetchOutcome.ok (some j)) ∧
    (r.ok = true → r.status ≠ 204 → r.jsonBody = none →
      handleResponse r = FetchOutcome.parseError) := by
  refine ⟨?_, ⟨?_, ?_⟩, ?_, ?_, ?_⟩
  · intro hok
    rw [handleResponse, if_pos hok]
    refine ⟨_, rfl, rfl, ?_, ?_, ?_, ?_⟩
    · intro hne
      exact if_neg hne
    · intro he
      exact if_pos he
    · intro j hj
      rw [hj]
    · intro hj
      rw [hj]
  · rintro ⟨e, he⟩
    by_contra hok
    have hok' : r.ok = true := by
      cases hb : r.ok
      · exact absurd hb hok
      · rfl
    rw [handleResponse, if_neg (by simp [hok'])] at he
    by_cases h204 : r.status = 204
    · rw [if_pos h204] at he
      exact FetchOutcome.noConfusion he
    · rw [if_neg h204] at he
      cases hj : r.jsonBody with
      | some j => rw [hj] at he; exact FetchOutcome.noConfusion he
      | none => rw [hj] at he; exact FetchOutcome.noConfusion he
  · intro hok
    exact ⟨_, by rw [handleResponse, if_pos hok]⟩
  · intro hok h204
    rw [handleResponse, if_neg (by simp [hok]), if_pos h204]
  · intro hok h204 j hj
    rw [handleResponse, if_neg (by simp [hok]), if_neg h204, hj]
  · intro hok h204 hj
    rw [handleResponse, if_neg (by simp [hok]), if_neg h204, hj]

/-- Witness for claim C1 at concrete responses: a 404 throws an `ApiError`, a
204 resolves to `undefined`, and an ok JSON body resolves to the parsed
value. -/
theorem claim_c1_witness :
    (∃ e, handleResponse c1W404 = FetchOutcome.apiError e) ∧
    handleResponse c1W204 = FetchOutcome.ok none ∧
    handleResponse c1W200 = FetchOutcome.ok (some 7) :=
  ⟨(claim_c1_amended c1W404).2.1.mpr rfl,
    (claim_c1_amended c1W204).2.2.1 rfl rfl,
    (claim_c1_amended c1W200).2.2.2.1 rfl (by decide) 7 rfl⟩

/-- Looking up the key just written by `setHeader` yields the new value. -/
theorem getHeader_setHeader_self (hs : List (String × String)) (k v : String) :
    getHeader (setHeader hs k v) k = some v := by
  induction hs with
  | nil => simp [setHeader, getHeader]
  | cons e rest ih =>
    by_cases hk : e.1 = k
    · simp [setHeader, getHeader, hk]
    · simp [setHeader, getHeader, hk, ih]

/-- `setHeader` leaves every other key unchanged. -/
theorem getHeader_setHeader_ne (hs : List (String × String)) (k k2 v : String)
    (h : k2 ≠ k) :
    getHeader (setHeader hs k v) k2 = getHeader hs k2 := by
  induction hs with
  | nil => simp [setHeader, getHeader, Ne.symm h]
  | cons e rest ih =>
    by_cases hk : e.1 = k
    · subst hk
      simp [setHeader, getHeader, Ne.symm h]
    · by_cases hk2 : e.1 = k2
      · simp [setHeader, getHeader, hk, hk2, h]
      · simp [setHeader, getHeader, hk, hk2, ih]

/-- Spreading custom headers that do not mention a key leaves that key's
lookup unchanged. -/
theorem getHeader_foldl_absent (custom : List (String × String))
    (init : List (String × String)) (k : String)
    (h : ∀ e ∈ custom, e.1 ≠ k) :
    getHeader (custom.foldl (fun hs e => setHeader hs e.1 e.2) init) k =
      getHeader init k := by
  induction custom generalizing init with
  | nil => rfl
  | cons e rest ih =>
    rw [List.foldl_cons,
      ih (setHeader init e.1 e.2) (fun x hx => h x (List.mem_cons_of_mem e hx)),
      getHeader_setHeader_ne init e.1 k e.2
        (Ne.symm (h e (List.mem_cons_self e rest)))]

/-- `bodyHeaders` never touches the Authorization entry. -/
theorem getHeader_bodyHeaders_auth {J : Type} (hs : List (String × String))
    (body : Option J) :
    getHeader (bodyHeaders hs body) "Authorization" = getHeader hs "Authorization" := by
  cases body with
  | some j => exact getHeader_setHeader_ne _ _ _ _ (by decide)
  | none => rfl

/-- The Authorization entry after the token step. -/
theorem getHeader_authHeaders (hs : List (String × String)) (token : Option String)
    (h : getHeader hs "Authorization" = none) :
    getHeader (authHeaders hs token) "Authorization" =
      match token with
      | some t => if t = "" then none else some ("Bearer " ++ t)
      | none => none := by
  cases token with
  | some t =>
    by_cases he : t = ""
    · simp only [authHeaders, he, if_pos rfl]
      exact h
    · simp only [authHeaders, if_neg he]
      exact getHeader_setHeader_self _ _ _
  | none => exact h

/-- Counterexample for claim C2: with no token but a custom `Authorization`
entry in `options.headers`, the built request carries an Authorization header
even though `options.token` is not truthy, so "an Authorization header ... is
present if and only if options.token is truthy" fails at this input. -/
theorem claim_c2_counterexample :
    strTruthy c2CxOptions.token = false ∧
    getHeader (buildRequest "http://localhost:8000" "/api/users/" c2CxOptions).headers
        "Authorization" = some "Bearer hacked" := by
  constructor
  · rfl
  · decide

/-- Claim C2 amended: provided `options.headers` does not itself contain an
`Authorization` entry, `apiFetch` builds the request exactly as claimed: the
URL is `path` verbatim when it starts with "http" and otherwise the base URL
with a single trailing slash stripped, one "/" separator (omitted when `path`
starts with "/"), then `path`; an Authorization header is present iff
`options.token` is truthy, and then equals "Bearer " followed by the token;
and a Content-Type of application/json together with a serialized body are
present iff `options.body` is defined. -/
theorem claim_c2_amended {J : Type} (baseUrl path : String) (o : RequestOptions J)
    (hAuth : ∀ e ∈ o.headers, e.1 ≠ "Authorization") :
    ((buildRequest baseUrl path o).url =
      if path.startsWith "http" then path
      else
        (if baseUrl.endsWith "/" then baseUrl.dropRight 1 else baseUrl) ++
          (if path.startsWith "/" then "" else "/") ++ path) ∧
    (∀ t, o.token = some t → t ≠ "" →
      getHeader (buildRequest baseUrl path o).headers "Authorization" =
        some ("Bearer " ++ t)) ∧
    ((getHeader (buildRequest baseUrl path o).headers "Authorization" ≠ none) ↔
      strTruthy o.token = true) ∧
    ((getHeader (buildRequest baseUrl path o).headers "Content-Type" =
          some "application/json" ∧
        (buildRequest baseUrl path o).body ≠ none) ↔ o.body ≠ none) := by
  have hbase : getHeader (baseHeaders o.headers) "Authorization" = none := by
    rw [baseHeaders, getHeader_foldl_absent o.headers _ "Authorization" hAuth]
    rfl
  have hauth :
      getHeader (buildRequest baseUrl path o).headers "Authorization" =
        match o.token with
        | some t => if t = "" then none else some ("Bearer " ++ t)
        | none => none := by
    rw [show (buildRequest baseUrl path o).headers =
        bodyHeaders (authHeaders (baseHeaders o.headers) o.token) o.body from rfl,
      getHeader_bodyHeaders_auth,
      getHeader_authHeaders _ _ hbase]
  refine ⟨?_, ?_, ?_, ?_⟩
  · simp only [buildRequest]
    rw [buildUrl, stripTrailingSlash]
  · intro t ht hne
    rw [hauth, ht]
    simp [hne]
  · rw [hauth]
    cases ht : o.token with
    | some t =>
      by_cases he : t = ""
      · simp [he, strTruthy]
      · simp [he, strTruthy]
    | none => simp [strTruthy]
  · constructor
    · rintro ⟨-, hbody⟩
      exact hbody
    · intro hbody
      refine ⟨?_, hbody⟩
      rw [show (buildRequest baseUrl path o).headers =
          bodyHeaders (authHeaders (baseHeaders o.headers) o.token) o.body from rfl]
      cases hb : o.body with
      | some j => exact getHeader_setHeader_self _ _ _
      | none => exact absurd hb hbody

/-- Witness for claim C2 at a concrete base URL, path, and options with a
truthy token, a harmless custom header, and a defined body. -/
theorem claim_c2_witness :
    getHeader (buildRequest "http://localhost:8000/" "api/users/" c2WOptions).headers
        "Authorization" = some ("Bearer " ++ "tok") ∧
    ((getHeader (buildRequest "http://localhost:8000/" "api/users/" c2WOptions).headers
          "Content-Type" = some "application/json" ∧
        (buildRequest "http://localhost:8000/" "api/users/" c2WOptions).body ≠ none) ↔
      c2WOptions.body ≠ none) :=
  ⟨(claim_c2_amended "http://localhost:8000/" "api/users/" c2WOptions
      (by decide)).2.1 "tok" rfl (by decide),
    (claim_c2_amended "http://localhost:8000/" "api/users/" c2WOptions
      (by decide)).2.2.2⟩

/-- Claim C7: `fetchLocals` filters and sorts the fetched collection
client-side.  For any total transitive name order `le` (the `localeCompare`
collation), the displayed list is a permutation of exactly the locals whose
type is "cafeteria" or "hibrido" — a local is displayed iff it is in the
response with one of those types, so no other local appears — and it is
sorted ascending by name under the collation. -/
theorem claim_c7_locals_filter_sort (le : String → String → Bool)
    (response : List Local)
    (htot : ∀ a b, le a b = true ∨ le b a = true)
    (htrans : ∀ a b c, le a b = true → le b c = true → le a c = true) :
    List.Perm (fetchLocalsProcess le response)
      (response.filter isCafeteriaOrHibrido) ∧
    (∀ l, l ∈ fetchLocalsProcess le response ↔
      l ∈ response ∧ (l.venueType = "cafeteria" ∨ l.venueType = "hibrido")) ∧
    List.Sorted (fun a b => le a.name b.name = true)
      (fetchLocalsProcess le response) := by
  have hperm : List.Perm (fetchLocalsProcess le response)
      (response.filter isCafeteriaOrHibrido) :=
    List.perm_insertionSort _ _
  refine ⟨hperm, ?_, ?_⟩
  · intro l
    rw [hperm.mem_iff, List.mem_filter]
    constructor
    · rintro ⟨hl, hf⟩
      exact ⟨hl, by simpa [isCafeteriaOrHibrido] using hf⟩
    · rintro ⟨hl, hf⟩
      exact ⟨hl, by simpa [isCafeteriaOrHibrido] using hf⟩
  · haveI : IsTotal Local (fun a b => le a.name b.name = true) :=
      ⟨fun a b => htot a.name b.name⟩
    haveI : IsTrans Local (fun a b => le a.name b.name = true) :=
      ⟨fun a b c => htrans a.name b.name c.name⟩
    exact List.sorted_insertionSort _ _

/-- Witness for claim C7 with a concrete total transitive collation and a
concrete response containing a cafeteria, a hybrid, and a bar. -/
theorem claim_c7_witness :
    List.Sorted (fun a b : Local => lengthLe a.name b.name = true)
      (fetchLocalsProcess lengthLe [c7Bar, c7Hibrido, c7Cafe]) ∧
    c7Cafe ∈ fetchLocalsProcess lengthLe [c7Bar, c7Hibrido, c7Cafe] := by
  have htot : ∀ a b : String, lengthLe a b = true ∨ lengthLe b a = true := by
    intro a b
    rcases Nat.le_total a.length b.length with h | h
    · exact Or.inl (by simpa [lengthLe] using h)
    · exact Or.inr (by simpa [lengthLe] using h)
  have htrans : ∀ a b c : String,
      lengthLe a b = true → lengthLe b c = true → lengthLe a c = true := by
    intro a b c hab hbc
    simp only [lengthLe, decide_eq_true_eq] at hab hbc ⊢
    omega
  have h := claim_c7_locals_filter_sort lengthLe [c7Bar, c7Hibrido, c7Cafe]
    htot htrans
  exact ⟨h.2.2, (h.2.1 c7Cafe).mpr ⟨by simp, Or.inl rfl⟩⟩

/-- Pointwise equal functions map lists equally. -/
theorem map_congr_mem {α β : Type} (l : List α) (f g : α → β)
    (h : ∀ x ∈ l, f x = g x) : l.map f = l.map g := by
  induction l with
  | nil => rfl
  | cons x l ih =>
    rw [List.map_cons, List.map_cons, h x (List.mem_cons_self x l),
      ih fun y hy => h y (List.mem_cons_of_mem x hy)]

/-- Snoc equation for `firstWithKey`. -/
theorem firstWithKey_append (k : Int) (xs : List CatalogProduct)
    (p : CatalogProduct) :
    firstWithKey k (xs ++ [p]) =
      match firstWithKey k xs with
      | some q => some q
      | none => if categoryKey p = k then some p else none := by
  induction xs with
  | nil => simp [firstWithKey]
  | cons x xs ih =>
    by_cases h : categoryKey x = k
    · simp [firstWithKey, h]
    · simp [firstWithKey, h, ih]

/-- Snoc equation for `itemsWithKey`. -/
theorem itemsWithKey_append (k : Int) (xs : List CatalogProduct)
    (p : CatalogProduct) :
    itemsWithKey k (xs ++ [p]) =
      itemsWithKey k xs ++ (if categoryKey p = k then [p] else []) := by
  induction xs with
  | nil => simp [itemsWithKey]
  | cons x xs ih =>
    by_cases h : categoryKey x = k
    · simp [itemsWithKey, h, ih]
    · simp [itemsWithKey, h, ih]

/-- `firstWithKey` finds nothing exactly when no product carries the key. -/
theorem firstWithKey_eq_none (k : Int) (xs : List CatalogProduct) :
    firstWithKey k xs = none ↔ ∀ q ∈ xs, categoryKey q ≠ k := by
  induction xs with
  | nil => simp [firstWithKey]
  | cons x xs ih =>
    by_cases h : categoryKey x = k
    · simp [firstWithKey, h]
    · simp [firstWithKey, h, ih]

/-- A key carried by some member always has a first carrier. -/
theorem firstWithKey_isSome (k : Int) (xs : List CatalogProduct)
    (h : ∃ q ∈ xs, categoryKey q = k) :
    ∃ q, firstWithKey k xs = some q := by
  cases hfw : firstWithKey k xs with
  | some q => exact ⟨q, rfl⟩
  | none =>
    obtain ⟨q, hq, hk⟩ := h
    exact absurd hk ((firstWithKey_eq_none k xs).mp hfw q hq)

/-- No carriers means no items. -/
theorem itemsWithKey_eq_nil (k : Int) (xs : List CatalogProduct)
    (h : ∀ q ∈ xs, categoryKey q ≠ k) :
    itemsWithKey k xs = [] := by
  induction xs with
  | nil => rfl
  | cons x xs ih =>
    rw [itemsWithKey, if_neg (h x (List.mem_cons_self x xs))]
    exact ih fun q hq => h q (List.mem_cons_of_mem x hq)

/-- Membership in `addKey`. -/
theorem mem_addKey (ks : List Int) (k k2 : Int) :
    k ∈ addKey ks k2 ↔ k ∈ ks ∨ k = k2 := by
  by_cases h : k2 ∈ ks
  · rw [addKey, if_pos h]
    constructor
    · exact Or.inl
    · rintro (h1 | rfl)
      · exact h1
      · exact h
  · rw [addKey, if_neg h]
    simp

/-- Membership after folding `addKey` over products. -/
theorem mem_foldl_addKey (xs : List CatalogProduct) (acc : List Int) (k : Int) :
    k ∈ xs.foldl (fun ks p => addKey ks (categoryKey p)) acc ↔
      k ∈ acc ∨ ∃ q ∈ xs, categoryKey q = k := by
  induction xs generalizing acc with
  | nil => simp
  | cons x xs ih =>
    rw [List.foldl_cons, ih, mem_addKey]
    constructor
    · rintro ((h1 | rfl) | ⟨q, hq, hk⟩)
      · exact Or.inl h1
      · exact Or.inr ⟨x, List.mem_cons_self x xs, rfl⟩
      · exact Or.inr ⟨q, List.mem_cons_of_mem x hq, hk⟩
    · rintro (h1 | ⟨q, hq, hk⟩)
      · exact Or.inl (Or.inl h1)
      · rcases List.mem_cons.mp hq with rfl | hq2
        · exact Or.inl (Or.inr hk.symm)
        · exact Or.inr ⟨q, hq2, hk⟩

/-- The grouping keys are exactly the keys carried by some product. -/
theorem mem_keysOf (xs : List CatalogProduct) (k : Int) :
    k ∈ keysOf xs ↔ ∃ q ∈ xs, categoryKey q = k := by
  rw [keysOf, mem_foldl_addKey]
  simp

/-- `addKey` preserves distinctness. -/
theorem nodup_addKey (ks : List Int) (k : Int) (h : ks.Nodup) :
    (addKey ks k).Nodup := by
  by_cases hk : k ∈ ks
  · rw [addKey, if_pos hk]
    exact h
  · rw [addKey, if_neg hk]
    simp [List.nodup_append, h, hk]

/-- Folding `addKey` preserves distinctness. -/
theorem nodup_foldl_addKey (xs : List CatalogProduct) (acc : List Int)
    (h : acc.Nodup) :
    (xs.foldl (fun ks p => addKey ks (categoryKey p)) acc).Nodup := by
  induction xs generalizing acc with
  | nil => exact h
  | cons x xs ih =>
    rw [List.foldl_cons]
    exact ih _ (nodup_addKey acc (categoryKey x) h)

/-- The grouping keys are distinct. -/
theorem keysOf_nodup (xs : List CatalogProduct) : (keysOf xs).Nodup :=
  nodup_foldl_addKey xs [] List.nodup_nil

/-- Snoc equation for `keysOf`. -/
theorem keysOf_append (xs : List CatalogProduct) (p : CatalogProduct) :
    keysOf (xs ++ [p]) = addKey (keysOf xs) (categoryKey p) := by
  rw [keysOf, keysOf, List.foldl_append]
  rfl

/-- A key absent from the list is absent from the index map. -/
theorem lookupKey_not_mem (ks : List Int) (start : Nat) (k : Int) (h : k ∉ ks) :
    lookupKey k (indexListFrom start ks) = none := by
  induction ks generalizing start with
  | nil => rfl
  | cons k0 ks ih =>
    have h0 : ¬(k0 = k) := fun he => h (he ▸ List.mem_cons_self k0 ks)
    simp only [indexListFrom, lookupKey]
    rw [if_neg h0]
    exact ih (start + 1) fun hm => h (List.mem_cons_of_mem k0 hm)

/-- A key present in the list is present in the index map. -/
theorem lookupKey_mem (ks : List Int) (start : Nat) (k : Int) (h : k ∈ ks) :
    ∃ i, lookupKey k (indexListFrom start ks) = some i := by
  induction ks generalizing start with
  | nil => exact absurd h (List.not_mem_nil k)
  | cons k0 ks ih =>
    by_cases h0 : k0 = k
    · exact ⟨start, by simp [indexListFrom, lookupKey, h0]⟩
    · have hm : k ∈ ks := by
        rcases List.mem_cons.mp h with he | hm
        · exact absurd he.symm h0
        · exact hm
      obtain ⟨i, hi⟩ := ih (start + 1) hm
      refine ⟨i, ?_⟩
      simp only [indexListFrom, lookupKey]
      rw [if_neg h0]
      exact hi

/-- Pushing a product at the index the map reports rewrites exactly the group
of that key, leaving every other group untouched. -/
theorem pushItem_map (ks : List Int) (f g : Int → CatalogGroup)
    (p : CatalogProduct) (k : Int) (start i : Nat) (hnd : ks.Nodup)
    (hlk : lookupKey k (indexListFrom start ks) = some i)
    (hfg : ∀ k2 ∈ ks, k2 ≠ k → g k2 = f k2)
    (hgk : g k = { f k with items := (f k).items ++ [p] }) :
    start ≤ i ∧ pushItem (ks.map f) (i - start) p = ks.map g := by
  induction ks generalizing start with
  | nil => exact absurd hlk (by simp [indexListFrom, lookupKey])
  | cons k0 ks ih =>
    simp only [indexListFrom, lookupKey] at hlk
    by_cases h0 : k0 = k
    · rw [if_pos h0] at hlk
      have hi : i = start := (Option.some.inj hlk).symm
      subst hi
      subst h0
      refine ⟨Nat.le_refl i, ?_⟩
      rw [Nat.sub_self, List.map_cons, List.map_cons, pushItem, hgk]
      have hk0 : k0 ∉ ks := (List.nodup_cons.mp hnd).1
      rw [map_congr_mem ks f g fun k2 hk2 =>
        (hfg k2 (List.mem_cons_of_mem k0 hk2)
          fun he => hk0 (he ▸ hk2)).symm]
    · rw [if_neg h0] at hlk
      obtain ⟨hle, hpush⟩ := ih (start + 1) (List.nodup_cons.mp hnd).2 hlk
        fun k2 hk2 hne => hfg k2 (List.mem_cons_of_mem k0 hk2) hne
      refine ⟨Nat.le_trans (Nat.le_succ start) hle, ?_⟩
      have hsub : i - start = (i - (start + 1)) + 1 := by omega
      rw [List.map_cons, List.map_cons, hsub, pushItem, hpush,
        hfg k0 (List.mem_cons_self k0 ks) h0]

/-- Pushing at the index of a freshly appended group fills that group. -/
theorem pushItem_append_last (gs : List CatalogGroup) (g : CatalogGroup)
    (p : CatalogProduct) :
    pushItem (gs ++ [g]) gs.length p =
      gs ++ [{ g with items := g.items ++ [p] }] := by
  induction gs with
  | nil => rfl
  | cons g0 gs ih =>
    simp only [List.cons_append, List.length_cons, pushItem, List.append_eq, ih]

/-- Snoc equation for the index map. -/
theorem indexListFrom_append (ks : List Int) (k : Int) (start : Nat) :
    indexListFrom start (ks ++ [k]) =
      indexListFrom start ks ++ [(k, start + ks.length)] := by
  induction ks generalizing start with
  | nil => simp [indexListFrom]
  | cons k0 ks ih =>
    simp only [List.cons_append, indexListFrom, List.append_eq, List.length_cons]
    rw [ih (start + 1)]
    have harith : start + 1 + ks.length = start + (ks.length + 1) := by omega
    rw [harith]

/-- Appending a product with a different key leaves a key's group unchanged. -/
theorem groupForKey_append_ne (xs : List CatalogProduct) (p : CatalogProduct)
    (k2 : Int) (hne : k2 ≠ categoryKey p) (hex : ∃ q ∈ xs, categoryKey q = k2) :
    groupForKey (xs ++ [p]) k2 = groupForKey xs k2 := by
  obtain ⟨q0, hq0⟩ := firstWithKey_isSome k2 xs hex
  have hncond : ¬(categoryKey p = k2) := fun h => hne h.symm
  unfold groupForKey
  rw [firstWithKey_append, itemsWithKey_append, hq0]
  simp [hncond]

/-- Appending a product with a brand-new key creates its singleton group. -/
theorem groupForKey_append_new (xs : List CatalogProduct) (p : CatalogProduct)
    (hnone : ∀ q ∈ xs, categoryKey q ≠ categoryKey p) :
    groupForKey (xs ++ [p]) (categoryKey p) =
      { categoryId := p.category, categoryName := displayCategoryName p,
        items := [p] } := by
  have hfw : firstWithKey (categoryKey p) xs = none :=
    (firstWithKey_eq_none _ _).mpr hnone
  have hit : itemsWithKey (categoryKey p) xs = [] :=
    itemsWithKey_eq_nil _ _ hnone
  unfold groupForKey
  rw [firstWithKey_append, hfw, itemsWithKey_append, hit]
  simp

/-- Appending a product whose key already occurs extends that key's items. -/
theorem groupForKey_append_self (xs : List CatalogProduct) (p : CatalogProduct)
    (hex : ∃ q ∈ xs, categoryKey q = categoryKey p) :
    groupForKey (xs ++ [p]) (categoryKey p) =
      { groupForKey xs (categoryKey p) with
        items := (groupForKey xs (categoryKey p)).items ++ [p] } := by
  obtain ⟨q0, hq0⟩ := firstWithKey_isSome (categoryKey p) xs hex
  unfold groupForKey
  rw [firstWithKey_append, itemsWithKey_append, hq0]
  simp

/-- `groupStep` when the key is already indexed. -/
theorem groupStep_lookup_some (st : List CatalogGroup × List (Int × Nat))
    (p : CatalogProduct) (i : Nat)
    (h : lookupKey (categoryKey p) st.2 = some i) :
    groupStep st p = (pushItem st.1 i p, st.2) := by
  unfold groupStep
  rw [h]

/-- `groupStep` when the key is new. -/
theorem groupStep_lookup_none (st : List CatalogGroup × List (Int × Nat))
    (p : CatalogProduct)
    (h : lookupKey (categoryKey p) st.2 = none) :
    groupStep st p =
      (pushItem (st.1 ++ [newGroup p]) st.1.length p,
        st.2 ++ [(categoryKey p, st.1.length)]) := by
  unfold groupStep
  rw [h]

/-- One loop iteration takes the closed-form state of a prefix to the
closed-form state of the prefix extended by the product. -/
theorem groupStep_implState (pref : List CatalogProduct) (p : CatalogProduct) :
    groupStep (implState pref) p = implState (pref ++ [p]) := by
  by_cases hk : categoryKey p ∈ keysOf pref
  · obtain ⟨i, hi⟩ := lookupKey_mem (keysOf pref) 0 (categoryKey p) hk
    obtain ⟨q, hq, hqk⟩ := (mem_keysOf pref (categoryKey p)).mp hk
    rw [groupStep_lookup_some (implState pref) p i hi]
    have hpush := pushItem_map (keysOf pref) (groupForKey pref)
      (groupForKey (pref ++ [p])) p (categoryKey p) 0 i (keysOf_nodup pref) hi
      (fun k2 hk2 hne =>
        groupForKey_append_ne pref p k2 hne ((mem_keysOf pref k2).mp hk2))
      (groupForKey_append_self pref p ⟨q, hq, hqk⟩)
    have h1 : pushItem (implGroups pref) i p = implGroups (pref ++ [p]) := by
      rw [implGroups, implGroups, keysOf_append, addKey, if_pos hk]
      have := hpush.2
      rwa [Nat.sub_zero] at this
    show (pushItem (implGroups pref) i p, indexListFrom 0 (keysOf pref)) =
      implState (pref ++ [p])
    rw [h1, implState, keysOf_append, addKey, if_pos hk]
  · have hlk := lookupKey_not_mem (keysOf pref) 0 (categoryKey p) hk
    rw [groupStep_lookup_none (implState pref) p hlk]
    have hnone : ∀ q ∈ pref, categoryKey q ≠ categoryKey p := by
      intro q hq he
      exact hk ((mem_keysOf pref (categoryKey p)).mpr ⟨q, hq, he⟩)
    have hlen : (implGroups pref).length = (keysOf pref).length :=
      List.length_map _ _
    have h1 : pushItem (implGroups pref ++ [newGroup p]) (implGroups pref).length p =
        implGroups (pref ++ [p]) := by
      rw [pushItem_append_last, implGroups, implGroups, keysOf_append, addKey,
        if_neg hk, List.map_append]
      have hmap : (keysOf pref).map (groupForKey pref) =
          (keysOf pref).map (groupForKey (pref ++ [p])) :=
        map_congr_mem _ _ _ fun k2 hk2 =>
          (groupForKey_append_ne pref p k2 (fun he => hk (he ▸ hk2))
            ((mem_keysOf pref k2).mp hk2)).symm
      rw [hmap, List.map_singleton, groupForKey_append_new pref p hnone]
      rfl
    have h2 : indexListFrom 0 (keysOf pref) ++
          [(categoryKey p, (implGroups pref).length)] =
        indexListFrom 0 (keysOf (pref ++ [p])) := by
      rw [keysOf_append, addKey, if_neg hk, indexListFrom_append, hlen,
        Nat.zero_add]
    show (pushItem (implGroups pref ++ [newGroup p]) (implGroups pref).length p,
        indexListFrom 0 (keysOf pref) ++
          [(categoryKey p, (implGroups pref).length)]) =
      implState (pref ++ [p])
    rw [h1, h2, implState]

/-- Folding the loop body from the closed-form state of a prefix yields the
closed-form state of the whole input. -/
theorem foldl_groupStep (rest pref : List CatalogProduct) :
    rest.foldl groupStep (implState pref) = implState (pref ++ rest) := by
  induction rest generalizing pref with
  | nil => rw [List.foldl_nil, List.append_nil]
  | cons p rest ih =>
    rw [List.foldl_cons, groupStep_implState, ih (pref ++ [p])]
    have : (pref ++ [p]) ++ rest = pref ++ p :: rest := by simp
    rw [this]

/-- The grouping loop computes its closed form: one group per distinct key in
first-occurrence order, each holding its carriers in input order. -/
theorem groupProducts_eq_implGroups (products : List CatalogProduct) :
    groupProductsByCategory products = implGroups products := by
  have h0 : implState [] = (([] : List CatalogGroup), ([] : List (Int × Nat))) :=
    rfl
  rw [groupProductsByCategory, ← h0, foldl_groupStep products []]
  rfl

/-- Membership in `addCat`. -/
theorem mem_addCat (cs : List (Option Int)) (c c2 : Option Int) :
    c ∈ addCat cs c2 ↔ c ∈ cs ∨ c = c2 := by
  by_cases h : c2 ∈ cs
  · rw [addCat, if_pos h]
    constructor
    · exact Or.inl
    · rintro (h1 | rfl)
      · exact h1
      · exact h
  · rw [addCat, if_neg h]
    simp

/-- Membership after folding `addCat` over products. -/
theorem mem_foldl_addCat (xs : List CatalogProduct) (acc : List (Option Int))
    (c : Option Int) :
    c ∈ xs.foldl (fun cs p => addCat cs p.category) acc ↔
      c ∈ acc ∨ ∃ q ∈ xs, q.category = c := by
  induction xs generalizing acc with
  | nil => simp
  | cons x xs ih =>
    rw [List.foldl_cons, ih, mem_addCat]
    constructor
    · rintro ((h1 | rfl) | ⟨q, hq, hk⟩)
      · exact Or.inl h1
      · exact Or.inr ⟨x, List.mem_cons_self x xs, rfl⟩
      · exact Or.inr ⟨q, List.mem_cons_of_mem x hq, hk⟩
    · rintro (h1 | ⟨q, hq, hk⟩)
      · exact Or.inl (Or.inl h1)
      · rcases List.mem_cons.mp hq with rfl | hq2
        · exact Or.inl (Or.inr hk.symm)
        · exact Or.inr ⟨q, hq2, hk⟩

/-- The claim-side categories are exactly the categories of the members. -/
theorem mem_claimCategories (xs : List CatalogProduct) (c : Option Int) :
    c ∈ claimCategories xs ↔ ∃ q ∈ xs, q.category = c := by
  rw [claimCategories, mem_foldl_addCat]
  simp

/-- `addCat` preserves distinctness. -/
theorem nodup_addCat (cs : List (Option Int)) (c : Option Int) (h : cs.Nodup) :
    (addCat cs c).Nodup := by
  by_cases hc : c ∈ cs
  · rw [addCat, if_pos hc]
    exact h
  · rw [addCat, if_neg hc]
    simp [List.nodup_append, h, hc]

/-- The claim-side category list is duplicate-free. -/
theorem nodup_claimCategories (xs : List CatalogProduct) :
    (claimCategories xs).Nodup := by
  rw [claimCategories]
  generalize hacc : ([] : List (Option Int)) = acc
  have hnd : acc.Nodup := hacc ▸ List.nodup_nil
  clear hacc
  induction xs generalizing acc with
  | nil => exact hnd
  | cons x xs ih =>
    rw [List.foldl_cons]
    exact ih _ (nodup_addCat acc x.category hnd)

/-- `firstWithCategory` finds nothing exactly when no product has the
category. -/
theorem firstWithCategory_eq_none (c : Option Int) (xs : List CatalogProduct) :
    firstWithCategory c xs = none ↔ ∀ q ∈ xs, q.category ≠ c := by
  induction xs with
  | nil => simp [firstWithCategory]
  | cons x xs ih =>
    by_cases h : x.category = c
    · simp [firstWithCategory, h]
    · simp [firstWithCategory, h, ih]

/-- A category carried by some member has a first carrier. -/
theorem firstWithCategory_isSome (c : Option Int) (xs : List CatalogProduct)
    (h : ∃ q ∈ xs, q.category = c) :
    ∃ q, firstWithCategory c xs = some q := by
  cases hfw : firstWithCategory c xs with
  | some q => exact ⟨q, rfl⟩
  | none =>
    obtain ⟨q, hq, hk⟩ := h
    exact absurd hk ((firstWithCategory_eq_none c xs).mp hfw q hq)

/-- The first carrier found by `firstWithCategory` has that category. -/
theorem firstWithCategory_category (c : Option Int) (xs : List CatalogProduct)
    (p : CatalogProduct) (h : firstWithCategory c xs = some p) :
    p.category = c := by
  induction xs with
  | nil => exact absurd h (by simp [firstWithCategory])
  | cons x xs ih =>
    by_cases hx : x.category = c
    · rw [firstWithCategory, if_pos hx] at h
      exact (Option.some.inj h) ▸ hx
    · rw [firstWithCategory, if_neg hx] at h
      exact ih h

/-- On categories other than the sentinel `some (-1)`, the key map is
injective. -/
theorem catToKey_inj (c1 c2 : Option Int) (h1 : c1 ≠ some (-1))
    (h2 : c2 ≠ some (-1)) (he : catToKey c1 = catToKey c2) : c1 = c2 := by
  cases c1 with
  | none =>
    cases c2 with
    | none => rfl
    | some x =>
      simp only [catToKey] at he
      exact absurd (by rw [← he]) h2
  | some x =>
    cases c2 with
    | none =>
      simp only [catToKey] at he
      exact absurd (by rw [he]) h1
    | some y =>
      simp only [catToKey] at he
      rw [he]

/-- The loop's grouping key is the key map applied to the category. -/
theorem categoryKey_eq_catToKey (p : CatalogProduct) :
    categoryKey p = catToKey p.category := by
  cases hc : p.category <;> simp [categoryKey, catToKey, hc]

/-- Without the sentinel category, the key accumulation mirrors the category
accumulation. -/
theorem foldl_keys_eq (xs : List CatalogProduct) (acc : List (Option Int))
    (hx : ∀ p ∈ xs, p.category ≠ some (-1))
    (ha : ∀ c ∈ acc, c ≠ some (-1)) :
    xs.foldl (fun ks p => addKey ks (categoryKey p)) (acc.map catToKey) =
      (xs.foldl (fun cs p => addCat cs p.category) acc).map catToKey := by
  induction xs generalizing acc with
  | nil => rfl
  | cons p xs ih =>
    have hp : p.category ≠ some (-1) := hx p (List.mem_cons_self p xs)
    have hmem : catToKey p.category ∈ acc.map catToKey ↔ p.category ∈ acc := by
      constructor
      · intro hm
        obtain ⟨c, hc, he⟩ := List.mem_map.mp hm
        exact (catToKey_inj c p.category (ha c hc) hp he) ▸ hc
      · intro hm
        exact List.mem_map_of_mem catToKey hm
    have hxs : ∀ q ∈ xs, q.category ≠ some (-1) :=
      fun q hq => hx q (List.mem_cons_of_mem p hq)
    rw [List.foldl_cons, List.foldl_cons, categoryKey_eq_catToKey]
    by_cases hin : p.category ∈ acc
    · rw [addKey, if_pos (hmem.mpr hin), addCat, if_pos hin]
      exact ih acc hxs ha
    · rw [addKey, if_neg fun hm => hin (hmem.mp hm), addCat, if_neg hin,
        show acc.map catToKey ++ [catToKey p.category] =
          (acc ++ [p.category]).map catToKey from by simp]
      refine ih (acc ++ [p.category]) hxs ?_
      intro c hc
      rcases List.mem_append.mp hc with h1 | h2
      · exact ha c h1
      · rw [List.mem_singleton.mp h2]
        exact hp

/-- Without the sentinel category, the loop's keys are the claim-side
categories under the key map. -/
theorem keysOf_eq_claimCategories (products : List CatalogProduct)
    (h : ∀ p ∈ products, p.category ≠ some (-1)) :
    keysOf products = (claimCategories products).map catToKey := by
  have hfold := foldl_keys_eq products [] h (by simp)
  simpa [keysOf, claimCategories] using hfold

/-- Without the sentinel category, first-carrier search agrees across the key
map. -/
theorem firstWithKey_eq_firstWithCategory (xs : List CatalogProduct)
    (c : Option Int) (hx : ∀ p ∈ xs, p.category ≠ some (-1))
    (hc : c ≠ some (-1)) :
    firstWithKey (catToKey c) xs = firstWithCategory c xs := by
  induction xs with
  | nil => rfl
  | cons p xs ih =>
    have hp : p.category ≠ some (-1) := hx p (List.mem_cons_self p xs)
    have hiff : categoryKey p = catToKey c ↔ p.category = c := by
      rw [categoryKey_eq_catToKey]
      constructor
      · exact fun he => catToKey_inj _ _ hp hc he
      · exact fun he => he ▸ rfl
    by_cases hpc : p.category = c
    · rw [firstWithKey, if_pos (hiff.mpr hpc), firstWithCategory, if_pos hpc]
    · rw [firstWithKey, if_neg fun h => hpc (hiff.mp h), firstWithCategory,
        if_neg hpc]
      exact ih fun q hq => hx q (List.mem_cons_of_mem p hq)

/-- Without the sentinel category, item collection agrees across the key
map. -/
theorem itemsWithKey_eq_itemsWithCategory (xs : List CatalogProduct)
    (c : Option Int) (hx : ∀ p ∈ xs, p.category ≠ some (-1))
    (hc : c ≠ some (-1)) :
    itemsWithKey (catToKey c) xs = itemsWithCategory c xs := by
  induction xs with
  | nil => rfl
  | cons p xs ih =>
    have hp : p.category ≠ some (-1) := hx p (List.mem_cons_self p xs)
    have hiff : categoryKey p = catToKey c ↔ p.category = c := by
      rw [categoryKey_eq_catToKey]
      constructor
      · exact fun he => catToKey_inj _ _ hp hc he
      · exact fun he => he ▸ rfl
    have hrec := ih fun q hq => hx q (List.mem_cons_of_mem p hq)
    by_cases hpc : p.category = c
    · rw [itemsWithKey, if_pos (hiff.mpr hpc), itemsWithCategory, if_pos hpc,
        hrec]
    · rw [itemsWithKey, if_neg fun h => hpc (hiff.mp h), itemsWithCategory,
        if_neg hpc, hrec]

/-- Without the sentinel category, the loop's group for a key equals the
claim-side group for the corresponding category. -/
theorem groupForKey_eq_claimGroupFor (products : List CatalogProduct)
    (c : Option Int) (hx : ∀ p ∈ products, p.category ≠ some (-1))
    (hc : c ∈ claimCategories products) :
    groupForKey products (catToKey c) = claimGroupFor products c := by
  obtain ⟨q, hq, hqc⟩ := (mem_claimCategories products c).mp hc
  have hcv : c ≠ some (-1) := hqc ▸ hx q hq
  obtain ⟨p0, hp0⟩ := firstWithCategory_isSome c products ⟨q, hq, hqc⟩
  have hp0c : p0.category = c := firstWithCategory_category c products p0 hp0
  unfold groupForKey claimGroupFor
  rw [firstWithKey_eq_firstWithCategory products c hx hcv, hp0,
    itemsWithKey_eq_itemsWithCategory products c hx hcv]
  simp [displayCategoryName, hp0c]

/-- Counterexample for claim C4: with a product of category `-1` preceding a
product of null category, the `?? -1` sentinel merges them into a single
group whose `categoryId` is `some (-1)`, so the claim's "all products with
null category go to a single group whose categoryId is null" fails: the
claim-side grouping would produce two groups, and the null-category product
ends up in the `some (-1)` group. -/
theorem claim_c4_counterexample :
    groupProductsByCategory [cxProdNeg, cxProdNull] =
      [{ categoryId := some (-1), categoryName := "Weird",
          items := [cxProdNeg, cxProdNull] }] ∧
    claimGroups [cxProdNeg, cxProdNull] =
      [{ categoryId := some (-1), categoryName := "Weird", items := [cxProdNeg] },
        { categoryId := none, categoryName := "Sin categoría",
          items := [cxProdNull] }] := by
  constructor
  · decide
  · decide

/-- Claim C4 amended: for inputs in which no product has the sentinel
category id `-1` (the value `product.category ?? -1` uses for null),
`groupProductsByCategory` computes exactly the claim-described grouping
`claimGroups`: one group per distinct category in order of first occurrence
(null categories forming their own group with `categoryId` null), each group
holding exactly its products in input order, named after the first member's
`category_name` with the "Sin categoría" fallback.  Together with the
coverage and distinctness of `claimCategories`, every product appears in
exactly one group and one position. -/
theorem claim_c4_amended (products : List CatalogProduct)
    (h : ∀ p ∈ products, p.category ≠ some (-1)) :
    groupProductsByCategory products = claimGroups products ∧
    (∀ p ∈ products, p.category ∈ claimCategories products) ∧
    (claimCategories products).Nodup := by
  refine ⟨?_, ?_, nodup_claimCategories products⟩
  · rw [groupProducts_eq_implGroups, implGroups,
      keysOf_eq_claimCategories products h, claimGroups, List.map_map]
    exact map_congr_mem _ _ _ fun c hc =>
      groupForKey_eq_claimGroupFor products c h hc
  · intro p hp
    exact (mem_claimCategories products p.category).mpr ⟨p, hp, rfl⟩

/-- Witness for claim C4 at a concrete sentinel-free input: one categorized
and one uncategorized product. -/
theorem claim_c4_witness :
    groupProductsByCategory [c4WProdA, c4WProdB] =
      claimGroups [c4WProdA, c4WProdB] :=
  (claim_c4_amended [c4WProdA, c4WProdB] (by decide)).1
